import Mathlib

/-!
Shallow embedding of the sgCheckup report-generation core
(`src/internal/report/report.go`) together with the `internal/multirange`
package it uses, and proofs checking the natural-language specification
against it.

Modelling conventions:
* Go strings are Lean `String`s; Go's byte-wise string order is modelled as the
  lexicographic order on the decoded character sequences (`String.data`), which
  coincides with it on ASCII data such as ARNs, names and statuses.
* Fallible Go calls return `Except String`; a Go runtime panic (out-of-range
  index) is modelled as `none` in an outer `Option`.
* The database is an external collaborator: the rows its two queries return are
  passed in as arguments (`facts`, `importMeta`).
-/

/-! ### Character-list helpers (kernel-computable counterparts of Go `strings`) -/

/-- Splits a character list at every occurrence of `sep`.  This is Go's
`strings.Split` on a one-character separator, over decoded characters:
`split "" = [""]`, and separators at the ends produce empty fields. -/
def splitChars (sep : Char) : List Char → List (List Char)
  | [] => [[]]
  | c :: cs =>
    let r := splitChars sep cs
    if c = sep then [] :: r
    else
      match r with
      | h :: t => (c :: h) :: t
      | [] => [[c]]

/-- Go `strings.Split(s, sep)` for a one-character separator. -/
def splitOnChar (sep : Char) (s : String) : List String :=
  (splitChars sep s.data).map (fun cs => String.mk cs)

namespace multirange

/-- Modelled from the spec: the `internal/multirange` package is not present
under `src/`.  Spec §3 defines `PortRange` as an inclusive integer range
`{start: integer ≥ 0, end: integer ≥ start}`.  The Go field `end` is a Lean
keyword and is rendered `stop`. -/
structure PortRange where
  start : Nat
  stop : Nat
deriving DecidableEq

/-- Modelled from the spec (§3): a `MultiRange` is an ordered sequence of
`PortRange`s, canonically sorted, disjoint and non-touching; the empty
sequence is the empty set. -/
structure MultiRange where
  ranges : List PortRange
deriving DecidableEq

/-- Modelled from the spec (§4.1 `FromString`): decimal parser for one token
component; `none` on the empty string or any non-digit character. -/
def parseDecimal : List Char → Option Nat
  | [] => none
  | cs =>
    if cs.all (·.isDigit) then
      some (cs.foldl (fun n c => n * 10 + (c.toNat - 48)) 0)
    else none

/-- Modelled from the spec (§4.1 `FromString`): a token is either a single
integer `N` or a range `N-M`; a token not of this shape, or a range with
`N > M`, is a `ParseError`. -/
def parseToken (cs : List Char) : Except String PortRange :=
  match splitChars '-' cs with
  | [a] =>
    match parseDecimal a with
    | some n => .ok ⟨n, n⟩
    | none => .error "ParseError: malformed token"
  | [a, b] =>
    match parseDecimal a, parseDecimal b with
    | some n, some m =>
      if n ≤ m then .ok ⟨n, m⟩
      else .error "ParseError: range start exceeds range end"
    | _, _ => .error "ParseError: malformed range token"
  | _ => .error "ParseError: malformed token"

/-- Modelled from the spec (§4.1): whitespace trimming around a token, so that
`Humanize` output (tokens joined by a comma and a space) re-parses. -/
def trimSpaces (cs : List Char) : List Char :=
  ((cs.dropWhile (· = ' ')).reverse.dropWhile (· = ' ')).reverse

/-- Modelled from the spec (§4.1 `FromString`): canonical insertion — the range
list stays sorted by `start`, and ranges that overlap or touch are merged. -/
def insertRange (r : PortRange) : List PortRange → List PortRange
  | [] => [r]
  | s :: rest =>
    if r.stop + 1 < s.start then r :: s :: rest
    else if s.stop + 1 < r.start then s :: insertRange r rest
    else insertRange ⟨min r.start s.start, max r.stop s.stop⟩ rest

/-- Modelled from the spec (§4.1 `FromString`): parse a comma-separated list of
tokens, inserting each resulting range in canonical form regardless of input
order or overlap. -/
def FromString (text : String) : Except String MultiRange :=
  (splitChars ',' text.data).foldlM
    (fun (mr : MultiRange) tok =>
      (parseToken (trimSpaces tok)).map (fun r => ⟨insertRange r mr.ranges⟩))
    ⟨[]⟩

/-- Modelled from the spec (§4.1 `RemoveElement`): removing `n` from one range
may split it in two, shrink a boundary, delete it, or leave it unchanged. -/
def removeFromRange (n : Nat) (r : PortRange) : List PortRange :=
  if n < r.start || r.stop < n then [r]
  else
    (if r.start < n then [⟨r.start, n - 1⟩] else []) ++
      (if n < r.stop then [⟨n + 1, r.stop⟩] else [])

/-- Modelled from the spec (§4.1 `RemoveElement`).  The Go argument is an
`int`, but every caller in this core passes a port number, which is
non-negative, so the element is a `Nat` here. -/
def MultiRange.RemoveElement (mr : MultiRange) (n : Nat) : MultiRange :=
  ⟨(mr.ranges.map (removeFromRange n)).flatten⟩

/-- Modelled from the spec (§4.1 `Size`): the total count of integers covered —
the sum over the ranges of `end - start + 1`; `0` for the empty set. -/
def MultiRange.Size (mr : MultiRange) : Nat :=
  mr.ranges.foldl (fun acc r => acc + (r.stop - r.start + 1)) 0

/-- Modelled from the spec (§4.1 `Humanize`): render the canonical ranges back
to text, singletons as one number, joined by a comma and a space, ascending. -/
def MultiRange.Humanize (mr : MultiRange) : String :=
  String.intercalate ", "
    (mr.ranges.map (fun r =>
      if r.start = r.stop then toString r.start
      else toString r.start ++ "-" ++ toString r.stop))

end multirange

namespace report

open multirange

/-- report.go `securityGroupRow`: the fact row the security-group query yields
for one group. -/
structure securityGroupRow where
  arn : String
  groupName : String
  ips : List String
  inUse : Bool
  isDefault : Bool
  portRanges : List String
  isLargePublicBlock : Bool
  largeRangeCount : Bool
  isRestricted : Bool
  internalOnly : Bool
deriving DecidableEq

/-- report.go `isProblematic`. -/
def securityGroupRow.isProblematic (r : securityGroupRow) : Bool :=
  if r.largeRangeCount then true
  else if r.isLargePublicBlock then true
  else false

/-- report.go `unsafePorts`: if the fact has at least one port-range spec,
parse the first one and remove every safe port from it; otherwise the empty
set.  `pkg/errors` wrapping is modelled as `message ++ ": " ++ cause`. -/
def securityGroupRow.unsafePorts (r : securityGroupRow) (safePorts : List Nat) :
    Except String MultiRange :=
  match r.portRanges with
  | p :: _ =>
    match multirange.FromString p with
    | .error e => .error ("Failed to parse port range: " ++ e)
    | .ok mr => .ok (safePorts.foldl (fun m port => m.RemoveElement port) mr)
  | [] => .ok ⟨[]⟩

/-- report.go `notes`: the note list built by successive appends. -/
def securityGroupRow.notes (r : securityGroupRow) (unsafePorts : MultiRange) :
    List String :=
  let notes : List String := []
  let notes :=
    if decide (unsafePorts.Size > 0) && !r.internalOnly then
      notes ++ ["Allows traffic from anywhere on TCP ports (" ++ unsafePorts.Humanize ++ ")"]
    else notes
  let notes :=
    if r.isLargePublicBlock then
      notes ++ ["Has IP restrictions, but they let through large ranges"]
    else notes
  let notes := if r.largeRangeCount then notes ++ ["Uses a lot of IP Ranges"] else notes
  let notes := if !r.inUse then notes ++ ["Not in use"] else notes
  let notes :=
    if decide (r.ips.length > 0) then
      notes ++ ["Contains " ++ toString r.ips.length ++ " public IP address(es)"]
    else notes ++ ["No public IP addresses found"]
  notes

/-- report.go `Row`. -/
structure Row where
  Arn : String
  Name : String
  Status : String
  PublicIps : List String
  InUse : Bool
  IsDefault : Bool
  Notes : List String
deriving DecidableEq

/-- report.go `Metadata`.  Timestamps are abstract ticks (`Nat`); the
`Generated` field is wall-clock time (`time.Now()`), outside the embedding,
and is omitted. -/
structure Metadata where
  Imported : Nat
  Account : String
  Organization : String
deriving DecidableEq

/-- report.go `Report`. -/
structure Report where
  Metadata : Metadata
  Rows : List Row
deriving DecidableEq

/-- report.go `defaultSafePorts`. -/
def defaultSafePorts : List Nat := [22, 80, 443]

/-- The status decision inlined in report.go `analyzeSecurityGroupResults`
(lines 212–240), as one function over the fact and its unsafe-port set. -/
def statusFor (row : securityGroupRow) (unsafePorts : MultiRange) : String :=
  if row.isDefault then
    if row.inUse then
      if row.isRestricted || row.internalOnly || decide (row.ips.length = 0) then "yellow"
      else "red"
    else
      if row.isRestricted then "green" else "yellow"
  else
    if row.inUse then
      if row.isRestricted || (!row.isProblematic && decide (unsafePorts.Size = 0)) then "green"
      else if decide (row.ips.length = 0) then "yellow"
      else "red"
    else "yellow"

/-- report.go `analyzeSecurityGroupResults`: classify every fact in input
order, aborting at the first unsafe-port failure, which is wrapped with the
stage description. -/
def analyzeSecurityGroupResults :
    List securityGroupRow → List Nat → Except String (List Row)
  | [], _ => .ok []
  | row :: rest, safePorts =>
    match row.unsafePorts safePorts with
    | .error e => .error ("Failed to calculate unsafe ports: " ++ e)
    | .ok unsafePorts =>
      match analyzeSecurityGroupResults rest safePorts with
      | .error e => .error e
      | .ok rows =>
        .ok ({ Arn := row.arn, Name := row.groupName,
               Status := statusFor row unsafePorts,
               PublicIps := row.ips, InUse := row.inUse,
               IsDefault := row.isDefault,
               Notes := row.notes unsafePorts } :: rows)

/-- report.go `statusIndex`.  A Go map lookup yields the zero value for a
missing key, hence the catch-all `0`. -/
def statusIndex (s : String) : Nat :=
  if s = "red" then 0
  else if s = "yellow" then 1
  else if s = "green" then 2
  else 0

/-- report.go `arnRegion`: `strings.Split(arn, ":")[3]`.  The index access
panics when the ARN has fewer than four colon-delimited fields; the panic is
modelled as `none`. -/
def arnRegion (arn : String) : Option String :=
  (splitOnChar ':' arn).get? 3

/-- report.go `sortRowsLess`: status first, then region, then name.  `none`
models the `arnRegion` panic on a malformed ARN. -/
def sortRowsLess (a b : Row) : Option Bool :=
  if a.Status = b.Status then
    match arnRegion a.Arn, arnRegion b.Arn with
    | some aRegion, some bRegion =>
      some (if aRegion = bRegion then decide (a.Name.data < b.Name.data)
            else decide (aRegion.data < bRegion.data))
    | _, _ => none
  else some (decide (statusIndex a.Status < statusIndex b.Status))

/-- The Boolean comparison `sort.SliceStable` is driven by; total on rows
whose ARN region is defined. -/
def rowLess (a b : Row) : Bool := (sortRowsLess a b).getD false

/-- Stable insertion of a later row `x` into an already-sorted earlier prefix:
`x` goes after every earlier row it is not strictly below. -/
def insertRow (x : Row) : List Row → List Row
  | [] => [x]
  | y :: ys => if rowLess x y then x :: y :: ys else y :: insertRow x ys

/-- Go `sort.SliceStable(reportRows, sortRowsLess)` is modelled as a stable
insertion sort, which produces exactly the stable ascending order
`sort.SliceStable` guarantees for the strict order `sortRowsLess`.  Which
element pairs `sort.SliceStable` actually compares is implementation-defined,
so the panic of `arnRegion` inside the comparison is modelled conservatively:
the sort is defined exactly when every row's region is defined (`none`
otherwise). -/
def sortReportRows (rows : List Row) : Option (List Row) :=
  if rows.all (fun r => (arnRegion r.Arn).isSome) then
    some (rows.foldl (fun acc x => insertRow x acc) [])
  else none

/-- report.go `loadMetadata`.  The most-recent-import query is abstracted to
`importMeta`: `none` means it returned no rows (Go returns an error),
`some (endDate, organization)` is the scanned record.  `reportRows[0]` and
`parts[4]` panic (modelled `none`) when out of bounds. -/
def loadMetadata (importMeta : Option (Nat × String)) (reportRows : List Row) :
    Option (Except String Metadata) :=
  match importMeta with
  | none => some (.error "Query for most recent import job found no results")
  | some (endDate, organization) =>
    match reportRows.head? with
    | none => none
    | some first =>
      match (splitOnChar ':' first.Arn).get? 4 with
      | none => none
      | some accountID =>
        let organization :=
          if "OrgDummy".data.isPrefixOf organization.data then "<NONE>" else organization
        some (.ok { Imported := endDate, Account := accountID,
                    Organization := organization })

/-- The body of report.go `Generate` from the point where the security-group
facts have been fetched.  Database connectivity, the helper installation and
the two queries are external collaborators, abstracted into the `facts` and
`importMeta` arguments; their I/O errors are outside the model.  The outer
`Option` models a runtime panic (`none`); the inner `Except` is the error
return, with `pkg/errors` wrapping modelled as `message ++ ": " ++ cause`. -/
def generateCore (facts : List securityGroupRow) (safePorts : List Nat)
    (importMeta : Option (Nat × String)) : Option (Except String Report) :=
  match analyzeSecurityGroupResults facts safePorts with
  | .error e => some (.error ("Failed to generate report from query results: " ++ e))
  | .ok reportRows =>
    match sortReportRows reportRows with
    | none => none
    | some sorted =>
      match loadMetadata importMeta sorted with
      | none => none
      | some (.error e) => some (.error ("Failed to load metadata: " ++ e))
      | some (.ok metadata) => some (.ok { Metadata := metadata, Rows := sorted })

/-- report.go `Generate`: a `nil` safe-port list (modelled as `none`) is
replaced by `defaultSafePorts` before analysis. -/
def generate (facts : List securityGroupRow) (safePorts : Option (List Nat))
    (importMeta : Option (Nat × String)) : Option (Except String Report) :=
  generateCore facts (safePorts.getD defaultSafePorts) importMeta

/-! ### Definitions taken from the spec's words (for the refinement claims) -/

/-- Spec §4.2 Step 2, stated from the spec's words: a fact is problematic iff
`largeRangeCount` is true or `isLargePublicBlock` is true. -/
def specProblematic (r : securityGroupRow) : Prop :=
  r.largeRangeCount = true ∨ r.isLargePublicBlock = true

instance (r : securityGroupRow) : Decidable (specProblematic r) := by
  unfold specProblematic
  infer_instance

/-- Spec §4.2 Step 3, stated from the spec's words: the status decision table,
rows evaluated in their stated order. -/
def specStatus (r : securityGroupRow) (unsafeSet : MultiRange) : String :=
  if r.isDefault = true ∧ r.inUse = true then
    if r.isRestricted = true ∨ r.internalOnly = true ∨ r.ips = [] then "yellow" else "red"
  else if r.isDefault = true ∧ r.inUse = false then
    if r.isRestricted = true then "green" else "yellow"
  else if r.isDefault = false ∧ r.inUse = true then
    if r.isRestricted = true ∨ (¬specProblematic r ∧ unsafeSet.Size = 0) then "green"
    else if r.ips = [] then "yellow"
    else "red"
  else "yellow"

/-- Spec §4.2 Step 4, stated from the spec's words: the ordered note list, each
entry present exactly when its predicate holds. -/
def specNotes (r : securityGroupRow) (unsafeSet : MultiRange) : List String :=
  (if unsafeSet.Size > 0 ∧ r.internalOnly = false then
      ["Allows traffic from anywhere on TCP ports (" ++ unsafeSet.Humanize ++ ")"]
    else []) ++
  (if r.isLargePublicBlock = true then
      ["Has IP restrictions, but they let through large ranges"]
    else []) ++
  (if r.largeRangeCount = true then ["Uses a lot of IP Ranges"] else []) ++
  (if r.inUse = false then ["Not in use"] else []) ++
  (if r.ips ≠ [] then ["Contains " ++ toString r.ips.length ++ " public IP address(es)"]
   else ["No public IP addresses found"])

/-- Spec §4.3 step 4, stated from the spec's words: severity rank,
`red`=0 < `yellow`=1 < `green`=2.  Report rows only carry these three
statuses; the final `3` merely keeps the function total. -/
def severityRank (s : String) : Nat :=
  if s = "red" then 0 else if s = "yellow" then 1 else if s = "green" then 2 else 3

/-- Spec §4.3 step 4, stated from the spec's words: the region component of
the composite sort key — the 4th colon-delimited field (zero-based index 3)
of the row's ARN.  The default `""` is never reached on the rows the sort
claims concern, whose field exists. -/
def specRegion (r : Row) : String := ((splitOnChar ':' r.Arn).get? 3).getD ""

/-- Spec §4.3 step 4, stated from the spec's words: the strict composite-key
order — severity rank first, then region, then name, lexicographic
ascending. -/
def specKeyLt (a b : Row) : Prop :=
  severityRank a.Status < severityRank b.Status ∨
    (severityRank a.Status = severityRank b.Status ∧
      ((specRegion a).data < (specRegion b).data ∨
        (specRegion a = specRegion b ∧ a.Name.data < b.Name.data)))

/-- Spec §4.3 step 4, stated from the spec's words: the non-strict
composite-key order. -/
def specKeyLe (a b : Row) : Prop :=
  severityRank a.Status < severityRank b.Status ∨
    (severityRank a.Status = severityRank b.Status ∧
      ((specRegion a).data < (specRegion b).data ∨
        (specRegion a = specRegion b ∧ a.Name.data ≤ b.Name.data)))

instance (a b : Row) : Decidable (specKeyLt a b) := by
  unfold specKeyLt
  infer_instance

instance (a b : Row) : Decidable (specKeyLe a b) := by
  unfold specKeyLe
  infer_instance

/-- The composite sort key as one value in a lexicographic product, used to
inherit the order algebra of `specKeyLt`/`specKeyLe` from `Prod.Lex`. -/
def keyOf (r : Row) : Nat ×ₗ (List Char ×ₗ List Char) :=
  toLex (severityRank r.Status, toLex ((specRegion r).data, r.Name.data))

/-- The shape of every row classification produces: one of the three statuses,
and — on the rows the sort and metadata claims concern — a defined ARN
region. -/
def ValidRow (r : Row) : Prop :=
  (r.Status = "red" ∨ r.Status = "yellow" ∨ r.Status = "green") ∧
    (arnRegion r.Arn).isSome = true

/-- Boolean test for an error result. -/
def exceptIsError {ε α : Type} : Except ε α → Bool
  | .error _ => true
  | .ok _ => false

/-- Recognizer for a run of `generate` that returned (not panicked with) an
error wrapped with the classification-stage description. -/
def isAnalysisStageError : Option (Except String Report) → Bool
  | some (.error e) => "Failed to generate report from query results: ".data.isPrefixOf e.data
  | _ => false

/-! ### Concrete fixtures used by the witness theorems -/

/-- Fixture: an in-use default group with a public IP and open ports. -/
def sampleRedFact : securityGroupRow :=
  { arn := "arn:aws:ec2:us-east-1:123456789012:security-group/sg-1"
    groupName := "web", ips := ["1.2.3.4"], inUse := true, isDefault := true
    portRanges := ["20-25"], isLargePublicBlock := false, largeRangeCount := false
    isRestricted := false, internalOnly := false }

/-- Fixture: a restricted, in-use, non-default group with no port data. -/
def sampleGreenFact : securityGroupRow :=
  { arn := "arn:aws:ec2:us-east-1:123456789012:security-group/sg-2"
    groupName := "db", ips := [], inUse := true, isDefault := false
    portRanges := [], isLargePublicBlock := false, largeRangeCount := false
    isRestricted := true, internalOnly := false }

/-- Fixture: a fact whose port-range text does not parse. -/
def sampleBadFact : securityGroupRow :=
  { arn := "arn:aws:ec2:us-east-1:123456789012:security-group/sg-3"
    groupName := "bad", ips := [], inUse := true, isDefault := false
    portRanges := ["abc"], isLargePublicBlock := false, largeRangeCount := false
    isRestricted := false, internalOnly := false }

/-- Fixture: a second restricted, in-use, non-default group, same region as
`sampleGreenFact` but with a later name. -/
def sampleGreen2Fact : securityGroupRow :=
  { arn := "arn:aws:ec2:us-east-1:123456789012:security-group/sg-4"
    groupName := "zz", ips := [], inUse := true, isDefault := false
    portRanges := [], isLargePublicBlock := false, largeRangeCount := false
    isRestricted := true, internalOnly := false }

/-- Fixture: the report row classification produces for `sampleRedFact`. -/
def sampleRedRow : Row :=
  { Arn := "arn:aws:ec2:us-east-1:123456789012:security-group/sg-1"
    Name := "web", Status := "red", PublicIps := ["1.2.3.4"]
    InUse := true, IsDefault := true
    Notes := ["Allows traffic from anywhere on TCP ports (20-21, 23-25)",
              "Contains 1 public IP address(es)"] }

/-- Fixture: the report row classification produces for `sampleGreenFact`. -/
def sampleGreenRow : Row :=
  { Arn := "arn:aws:ec2:us-east-1:123456789012:security-group/sg-2"
    Name := "db", Status := "green", PublicIps := []
    InUse := true, IsDefault := false
    Notes := ["No public IP addresses found"] }

/-- Fixture: the report row classification produces for `sampleGreen2Fact`. -/
def sampleZzRow : Row :=
  { Arn := "arn:aws:ec2:us-east-1:123456789012:security-group/sg-4"
    Name := "zz", Status := "green", PublicIps := []
    InUse := true, IsDefault := false
    Notes := ["No public IP addresses found"] }

/-- Fixture: the report `generate` produces from
`[sampleGreenFact, sampleRedFact]` with default safe ports and an import
record `(7, "OrgDummy123")`. -/
def sampleReport : Report :=
  { Metadata := { Imported := 7, Account := "123456789012", Organization := "<NONE>" }
    Rows := [sampleRedRow, sampleGreenRow] }

/-- Fixture: the report `generate` produces from
`[sampleGreenFact, sampleGreen2Fact]` with default safe ports and an import
record `(7, "acme")`. -/
def sampleGreenReport : Report :=
  { Metadata := { Imported := 7, Account := "123456789012", Organization := "acme" }
    Rows := [sampleGreenRow, sampleZzRow] }

end report

namespace report

open multirange

open List

/-! ### C1: the status decision table -/

/-- C1: for every security-group fact and every unsafe-port set, the status
the classifier computes (report.go lines 212–240) equals the §4.2 decision
table evaluated in its stated order, where a fact is problematic iff
`largeRangeCount` or `isLargePublicBlock`. -/
theorem classifier_status_matches_decision_table
    (r : securityGroupRow) (u : MultiRange) :
    statusFor r u = specStatus r u := by
  obtain ⟨arn, name, ips, inUse, isDefault, pr, lpb, lrc, res, io⟩ := r
  simp only [statusFor, specStatus, specProblematic, securityGroupRow.isProblematic]
  cases isDefault <;> cases inUse <;> cases res <;> cases io <;> cases lrc <;> cases lpb <;>
    by_cases hips : ips = [] <;> by_cases hs : u.Size = 0 <;>
      simp_all [List.length_eq_zero]

/-! ### C2: the ordered note list -/

/-- C2: for every fact and unsafe-port set, the classifier's note sequence
(report.go `notes`) is exactly the §4.2 step-4 list, in its fixed order, and
every report row carries at least one note. -/
theorem classifier_notes_match_spec (r : securityGroupRow) (u : MultiRange) :
    r.notes u = specNotes r u ∧ 0 < (r.notes u).length := by
  obtain ⟨arn, name, ips, inUse, isDefault, pr, lpb, lrc, res, io⟩ := r
  constructor
  · simp only [securityGroupRow.notes, specNotes]
    cases inUse <;> cases io <;> cases lpb <;> cases lrc <;>
      by_cases hips : ips = [] <;> by_cases hs : 0 < u.Size <;>
        simp_all [Nat.pos_iff_ne_zero]
  · simp only [securityGroupRow.notes]
    cases inUse <;> cases io <;> cases lpb <;> cases lrc <;>
      by_cases hs : 0 < u.Size <;>
        simp_all <;> split <;> simp

/-! ### C3: the unsafe-port computation -/

/-- C3: the unsafe-port set is the first `portRangeSpecs` entry parsed via
`MultiRange` with each supplied safe port removed, and is the empty set (of
size 0) when the fact has no `portRangeSpecs` entry. -/
theorem unsafePorts_follows_spec (r : securityGroupRow) (sp : List Nat) :
    (r.portRanges = [] →
      r.unsafePorts sp = Except.ok ⟨[]⟩ ∧ MultiRange.Size ⟨[]⟩ = 0) ∧
    (∀ p rest, r.portRanges = p :: rest →
      ∀ mr, multirange.FromString p = Except.ok mr →
        r.unsafePorts sp =
          Except.ok (sp.foldl (fun m port => m.RemoveElement port) mr)) := by
  constructor
  · intro h
    refine ⟨?_, rfl⟩
    simp [securityGroupRow.unsafePorts, h]
  · intro p rest h mr hmr
    simp [securityGroupRow.unsafePorts, h, hmr]

/-- Witness for C3, at a fact with no port data and a fact with `["20-25"]`
and safe port 22. -/
theorem unsafePorts_follows_spec_witness :
    (sampleGreenFact.unsafePorts [22] = Except.ok ⟨[]⟩ ∧
      MultiRange.Size ⟨[]⟩ = 0) ∧
    sampleRedFact.unsafePorts [22] =
      Except.ok ([22].foldl (fun m port => m.RemoveElement port) ⟨[⟨20, 25⟩]⟩) :=
  ⟨(unsafePorts_follows_spec sampleGreenFact [22]).1 rfl,
   (unsafePorts_follows_spec sampleRedFact [22]).2 "20-25" [] rfl ⟨[⟨20, 25⟩]⟩ rfl⟩

/-! ### Order algebra of the composite sort key -/

/-- The strict composite-key order is the lexicographic order on `keyOf`. -/
theorem specKeyLt_iff (a b : Row) : specKeyLt a b ↔ keyOf a < keyOf b := by
  simp only [specKeyLt, keyOf, Prod.Lex.lt_iff, String.ext_iff]

/-- The non-strict composite-key order is the lexicographic order on `keyOf`. -/
theorem specKeyLe_iff (a b : Row) : specKeyLe a b ↔ keyOf a ≤ keyOf b := by
  simp only [specKeyLe, keyOf, Prod.Lex.le_iff, Prod.Lex.lt_iff, String.ext_iff]

theorem specKeyLt_le {a b : Row} (h : specKeyLt a b) : specKeyLe a b := by
  rw [specKeyLe_iff]
  exact le_of_lt ((specKeyLt_iff a b).mp h)

theorem specKeyLe_trans {a b c : Row} (h1 : specKeyLe a b) (h2 : specKeyLe b c) :
    specKeyLe a c := by
  rw [specKeyLe_iff] at *
  exact le_trans h1 h2

theorem specKeyLt_of_lt_of_le {a b c : Row} (h1 : specKeyLt a b) (h2 : specKeyLe b c) :
    specKeyLt a c := by
  rw [specKeyLt_iff] at *
  rw [specKeyLe_iff] at h2
  exact lt_of_lt_of_le h1 h2

theorem specKeyLe_of_not_lt {a b : Row} (h : ¬specKeyLt a b) : specKeyLe b a := by
  rw [specKeyLt_iff] at h
  rw [specKeyLe_iff]
  exact not_lt.mp h

theorem specKeyLt_not_le {a b : Row} (h1 : specKeyLt a b) (h2 : specKeyLe b a) : False := by
  rw [specKeyLt_iff] at h1
  rw [specKeyLe_iff] at h2
  exact absurd h1 (not_lt.mpr h2)

/-! ### Agreement of the code comparison with the composite key -/

/-- On the three valid statuses, the Go map `statusIndex` agrees with the
spec's severity rank. -/
theorem statusIndex_eq_severityRank (s : String)
    (h : s = "red" ∨ s = "yellow" ∨ s = "green") : statusIndex s = severityRank s := by
  rcases h with rfl | rfl | rfl <;> rfl

/-- Distinct valid statuses have distinct severity ranks. -/
theorem severityRank_injOn (s t : String)
    (hs : s = "red" ∨ s = "yellow" ∨ s = "green")
    (ht : t = "red" ∨ t = "yellow" ∨ t = "green")
    (hne : s ≠ t) : severityRank s ≠ severityRank t := by
  rcases hs with rfl | rfl | rfl <;> rcases ht with rfl | rfl | rfl <;>
    first
      | exact absurd rfl hne
      | decide

/-- On a row with a defined region, `specRegion` is that region. -/
theorem specRegion_eq {r : Row} {s : String} (h : arnRegion r.Arn = some s) :
    specRegion r = s := by
  have : specRegion r = (arnRegion r.Arn).getD "" := rfl
  rw [this, h]
  rfl

/-- On valid rows the Boolean comparison driving the sort is exactly the
decidable test of the spec's strict composite-key order. -/
theorem rowLess_eq_decide (a b : Row) (ha : ValidRow a) (hb : ValidRow b) :
    rowLess a b = decide (specKeyLt a b) := by
  obtain ⟨hsa, hra⟩ := ha
  obtain ⟨hsb, hrb⟩ := hb
  obtain ⟨ra, hra'⟩ := Option.isSome_iff_exists.mp hra
  obtain ⟨rb, hrb'⟩ := Option.isSome_iff_exists.mp hrb
  have hsra : specRegion a = ra := specRegion_eq hra'
  have hsrb : specRegion b = rb := specRegion_eq hrb'
  unfold rowLess sortRowsLess
  by_cases hst : a.Status = b.Status
  · have hrank : severityRank a.Status = severityRank b.Status := by rw [hst]
    rw [if_pos hst, hra', hrb']
    simp only [Option.getD_some]
    by_cases hreg : ra = rb
    · subst hreg
      rw [if_pos rfl]
      apply decide_eq_decide.mpr
      unfold specKeyLt
      rw [hsra, hsrb]
      constructor
      · intro h
        exact Or.inr ⟨hrank, Or.inr ⟨rfl, h⟩⟩
      · rintro (h | ⟨-, h | ⟨-, h⟩⟩)
        · exact absurd h (by rw [hrank]; exact lt_irrefl _)
        · exact absurd h (lt_irrefl _)
        · exact h
    · rw [if_neg hreg]
      apply decide_eq_decide.mpr
      unfold specKeyLt
      rw [hsra, hsrb]
      constructor
      · intro h
        exact Or.inr ⟨hrank, Or.inl h⟩
      · rintro (h | ⟨-, h | ⟨heq, -⟩⟩)
        · exact absurd h (by rw [hrank]; exact lt_irrefl _)
        · exact h
        · exact absurd heq hreg
  · rw [if_neg hst]
    simp only [Option.getD_some]
    apply decide_eq_decide.mpr
    rw [statusIndex_eq_severityRank a.Status hsa, statusIndex_eq_severityRank b.Status hsb]
    have hrne : severityRank a.Status ≠ severityRank b.Status :=
      severityRank_injOn _ _ hsa hsb hst
    unfold specKeyLt
    constructor
    · exact Or.inl
    · rintro (h | ⟨heq, -⟩)
      · exact h
      · exact absurd heq hrne

/-! ### The stable insertion sort: permutation, sortedness, stability -/

theorem insertRow_perm (x : Row) (l : List Row) : insertRow x l ~ x :: l := by
  induction l with
  | nil => exact List.Perm.refl _
  | cons y ys ih =>
    unfold insertRow
    by_cases h : rowLess x y
    · rw [if_pos h]
    · rw [if_neg h]
      exact (ih.cons y).trans (List.Perm.swap x y ys)

theorem foldl_insert_perm (rows : List Row) :
    ∀ acc, rows.foldl (fun a x => insertRow x a) acc ~ acc ++ rows := by
  induction rows with
  | nil => intro acc; simp
  | cons x rest ih =>
    intro acc
    simp only [List.foldl_cons]
    exact ((ih (insertRow x acc)).trans
      (((insertRow_perm x acc).append_right rest))).trans List.perm_middle.symm

theorem insertRow_sorted (x : Row) (l : List Row) (hx : ValidRow x)
    (hl : ∀ y ∈ l, ValidRow y) (hs : l.Pairwise specKeyLe) :
    (insertRow x l).Pairwise specKeyLe := by
  induction l with
  | nil => simp [insertRow]
  | cons y ys ih =>
    have hy : ValidRow y := hl y (List.mem_cons_self y ys)
    have hys : ∀ z ∈ ys, ValidRow z := fun z hz => hl z (List.mem_cons_of_mem y hz)
    rw [List.pairwise_cons] at hs
    obtain ⟨hyz, hsy⟩ := hs
    unfold insertRow
    by_cases h : rowLess x y
    · rw [if_pos h]
      have hlt : specKeyLt x y := by
        have he := rowLess_eq_decide x y hx hy
        rw [he] at h
        exact of_decide_eq_true h
      refine List.Pairwise.cons ?_ (List.Pairwise.cons hyz hsy)
      intro z hz
      rcases List.mem_cons.mp hz with rfl | hz'
      · exact specKeyLt_le hlt
      · exact specKeyLe_trans (specKeyLt_le hlt) (hyz z hz')
    · rw [if_neg h]
      have hle : specKeyLe y x := by
        have he := rowLess_eq_decide x y hx hy
        rw [he] at h
        exact specKeyLe_of_not_lt (of_decide_eq_false (Bool.of_not_eq_true h))
      refine List.Pairwise.cons ?_ (ih hys hsy)
      intro z hz
      rcases List.mem_cons.mp ((insertRow_perm x ys).mem_iff.mp hz) with rfl | hz'
      · exact hle
      · exact hyz z hz'

theorem foldl_insert_sorted (rows : List Row) :
    ∀ acc, (∀ r ∈ rows, ValidRow r) → (∀ r ∈ acc, ValidRow r) →
      acc.Pairwise specKeyLe →
      (rows.foldl (fun a x => insertRow x a) acc).Pairwise specKeyLe := by
  induction rows with
  | nil => intro acc _ _ hs; simpa using hs
  | cons x rest ih =>
    intro acc hrows hacc hs
    have hx : ValidRow x := hrows x (List.mem_cons_self x rest)
    have hrest : ∀ r ∈ rest, ValidRow r := fun r hr => hrows r (List.mem_cons_of_mem x hr)
    have hacc' : ∀ r ∈ insertRow x acc, ValidRow r := by
      intro r hr
      rcases List.mem_cons.mp ((insertRow_perm x acc).mem_iff.mp hr) with rfl | hr'
      · exact hx
      · exact hacc r hr'
    simp only [List.foldl_cons]
    exact ih (insertRow x acc) hrest hacc' (insertRow_sorted x acc hx hacc hs)

theorem insertRow_split (x : Row) (l : List Row) :
    ∃ l₁ l₂, insertRow x l = l₁ ++ x :: l₂ ∧ l = l₁ ++ l₂ := by
  induction l with
  | nil => exact ⟨[], [], rfl, rfl⟩
  | cons y ys ih =>
    unfold insertRow
    by_cases h : rowLess x y
    · rw [if_pos h]
      exact ⟨[], y :: ys, rfl, rfl⟩
    · rw [if_neg h]
      obtain ⟨l₁, l₂, h1, h2⟩ := ih
      exact ⟨y :: l₁, l₂, by rw [h1]; rfl, by rw [h2]; rfl⟩

theorem sublist_insertRow {s : List Row} {l : List Row} (x : Row) (h : s <+ l) :
    s <+ insertRow x l := by
  obtain ⟨l₁, l₂, h1, h2⟩ := insertRow_split x l
  rw [h1]
  rw [h2] at h
  exact h.trans ((List.sublist_cons_self x l₂).append_left l₁)

theorem sublist_foldl_insert (rows : List Row) :
    ∀ acc (s : List Row), s <+ acc → s <+ rows.foldl (fun a x => insertRow x a) acc := by
  induction rows with
  | nil => intro acc s h; simpa using h
  | cons x rest ih =>
    intro acc s h
    simp only [List.foldl_cons]
    exact ih (insertRow x acc) s (sublist_insertRow x h)

theorem pair_insertRow (x a : Row) (l : List Row) (hs : l.Pairwise specKeyLe)
    (hl : ∀ y ∈ l, ValidRow y) (hx : ValidRow x) (hmem : a ∈ l)
    (hle : specKeyLe a x) : [a, x] <+ insertRow x l := by
  induction l with
  | nil => exact absurd hmem (List.not_mem_nil a)
  | cons y ys ih =>
    have hy : ValidRow y := hl y (List.mem_cons_self y ys)
    have hys : ∀ z ∈ ys, ValidRow z := fun z hz => hl z (List.mem_cons_of_mem y hz)
    rw [List.pairwise_cons] at hs
    obtain ⟨hyz, hsy⟩ := hs
    unfold insertRow
    by_cases h : rowLess x y
    · exfalso
      have hlt : specKeyLt x y := by
        have he := rowLess_eq_decide x y hx hy
        rw [he] at h
        exact of_decide_eq_true h
      rcases List.mem_cons.mp hmem with rfl | hmem'
      · exact specKeyLt_not_le hlt hle
      · exact specKeyLt_not_le hlt (specKeyLe_trans (hyz a hmem') hle)
    · rw [if_neg h]
      rcases List.mem_cons.mp hmem with rfl | hmem'
      · exact List.Sublist.cons₂ a
          (List.singleton_sublist.mpr ((insertRow_perm x ys).mem_iff.mpr
            (List.mem_cons_self x ys)))
      · exact (ih hsy hys hmem').cons y

theorem pair_foldl_mem (rows : List Row) :
    ∀ acc (a b : Row), (∀ r ∈ rows, ValidRow r) → (∀ r ∈ acc, ValidRow r) →
      acc.Pairwise specKeyLe → a ∈ acc → b ∈ rows → specKeyLe a b →
      [a, b] <+ rows.foldl (fun l x => insertRow x l) acc := by
  induction rows with
  | nil => intro acc a b _ _ _ _ hb; exact absurd hb (List.not_mem_nil b)
  | cons x rest ih =>
    intro acc a b hrows hacc hs ha hb hle
    have hx : ValidRow x := hrows x (List.mem_cons_self x rest)
    have hrest : ∀ r ∈ rest, ValidRow r := fun r hr => hrows r (List.mem_cons_of_mem x hr)
    have hacc' : ∀ r ∈ insertRow x acc, ValidRow r := by
      intro r hr
      rcases List.mem_cons.mp ((insertRow_perm x acc).mem_iff.mp hr) with rfl | hr'
      · exact hx
      · exact hacc r hr'
    simp only [List.foldl_cons]
    rcases List.mem_cons.mp hb with rfl | hb'
    · exact sublist_foldl_insert rest (insertRow b acc) [a, b]
        (pair_insertRow b a acc hs hacc hx ha hle)
    · exact ih (insertRow x acc) a b hrest hacc'
        (insertRow_sorted x acc hx hacc hs)
        ((insertRow_perm x acc).mem_iff.mpr (List.mem_cons_of_mem x ha)) hb' hle

theorem pair_foldl (rows : List Row) :
    ∀ acc (a b : Row), (∀ r ∈ rows, ValidRow r) → (∀ r ∈ acc, ValidRow r) →
      acc.Pairwise specKeyLe → [a, b] <+ rows → specKeyLe a b →
      [a, b] <+ rows.foldl (fun l x => insertRow x l) acc := by
  induction rows with
  | nil => intro acc a b _ _ _ hab _; exact absurd hab (by simp)
  | cons x rest ih =>
    intro acc a b hrows hacc hs hab hle
    have hx : ValidRow x := hrows x (List.mem_cons_self x rest)
    have hrest : ∀ r ∈ rest, ValidRow r := fun r hr => hrows r (List.mem_cons_of_mem x hr)
    have hacc' : ∀ r ∈ insertRow x acc, ValidRow r := by
      intro r hr
      rcases List.mem_cons.mp ((insertRow_perm x acc).mem_iff.mp hr) with rfl | hr'
      · exact hx
      · exact hacc r hr'
    cases hab with
    | cons _ hab' =>
      simp only [List.foldl_cons]
      exact ih (insertRow x acc) a b hrest hacc'
        (insertRow_sorted x acc hx hacc hs) hab' hle
    | cons₂ _ hab' =>
      simp only [List.foldl_cons]
      exact pair_foldl_mem rest (insertRow x acc) x b hrest hacc'
        (insertRow_sorted x acc hx hacc hs)
        ((insertRow_perm x acc).mem_iff.mpr (List.mem_cons_self x acc))
        (List.singleton_sublist.mp hab') hle

/-! ### Shape lemmas about classification and the assembled pipeline -/

/-- The classifier only ever emits the three statuses. -/
theorem statusFor_valid (row : securityGroupRow) (u : MultiRange) :
    statusFor row u = "red" ∨ statusFor row u = "yellow" ∨ statusFor row u = "green" := by
  unfold statusFor
  split_ifs <;> simp

theorem analyze_ok_length (facts : List securityGroupRow) :
    ∀ sp rows, analyzeSecurityGroupResults facts sp = Except.ok rows →
      rows.length = facts.length := by
  induction facts with
  | nil =>
    intro sp rows h
    simp only [analyzeSecurityGroupResults, Except.ok.injEq] at h
    subst h
    rfl
  | cons row rest ih =>
    intro sp rows h
    cases hu : row.unsafePorts sp with
    | error e =>
      simp only [analyzeSecurityGroupResults, hu] at h
      exact Except.noConfusion h
    | ok u =>
      cases ha : analyzeSecurityGroupResults rest sp with
      | error e =>
        simp only [analyzeSecurityGroupResults, hu, ha] at h
        exact Except.noConfusion h
      | ok rows' =>
        simp only [analyzeSecurityGroupResults, hu, ha, Except.ok.injEq] at h
        subst h
        simp [ih sp rows' ha]

theorem analyze_mem_status (facts : List securityGroupRow) :
    ∀ sp rows, analyzeSecurityGroupResults facts sp = Except.ok rows →
      ∀ r ∈ rows, r.Status = "red" ∨ r.Status = "yellow" ∨ r.Status = "green" := by
  induction facts with
  | nil =>
    intro sp rows h r hr
    simp only [analyzeSecurityGroupResults, Except.ok.injEq] at h
    subst h
    exact absurd hr (List.not_mem_nil r)
  | cons row rest ih =>
    intro sp rows h r hr
    cases hu : row.unsafePorts sp with
    | error e =>
      simp only [analyzeSecurityGroupResults, hu] at h
      exact Except.noConfusion h
    | ok u =>
      cases ha : analyzeSecurityGroupResults rest sp with
      | error e =>
        simp only [analyzeSecurityGroupResults, hu, ha] at h
        exact Except.noConfusion h
      | ok rows' =>
        simp only [analyzeSecurityGroupResults, hu, ha, Except.ok.injEq] at h
        subst h
        rcases List.mem_cons.mp hr with rfl | hr'
        · exact statusFor_valid row u
        · exact ih sp rows' ha r hr'

theorem analyze_mem_arn (facts : List securityGroupRow) :
    ∀ sp rows, analyzeSecurityGroupResults facts sp = Except.ok rows →
      ∀ r ∈ rows, ∃ f ∈ facts, r.Arn = f.arn := by
  induction facts with
  | nil =>
    intro sp rows h r hr
    simp only [analyzeSecurityGroupResults, Except.ok.injEq] at h
    subst h
    exact absurd hr (List.not_mem_nil r)
  | cons row rest ih =>
    intro sp rows h r hr
    cases hu : row.unsafePorts sp with
    | error e =>
      simp only [analyzeSecurityGroupResults, hu] at h
      exact Except.noConfusion h
    | ok u =>
      cases ha : analyzeSecurityGroupResults rest sp with
      | error e =>
        simp only [analyzeSecurityGroupResults, hu, ha] at h
        exact Except.noConfusion h
      | ok rows' =>
        simp only [analyzeSecurityGroupResults, hu, ha, Except.ok.injEq] at h
        subst h
        rcases List.mem_cons.mp hr with rfl | hr'
        · exact ⟨row, List.mem_cons_self row rest, rfl⟩
        · obtain ⟨f, hf, he⟩ := ih sp rows' ha r hr'
          exact ⟨f, List.mem_cons_of_mem row hf, he⟩

theorem analyze_error_of_mem (facts : List securityGroupRow) :
    ∀ sp f, f ∈ facts → exceptIsError (f.unsafePorts sp) = true →
      ∃ e, analyzeSecurityGroupResults facts sp = Except.error e := by
  induction facts with
  | nil => intro sp f hf _; exact absurd hf (List.not_mem_nil f)
  | cons row rest ih =>
    intro sp f hf herr
    cases hu : row.unsafePorts sp with
    | error e =>
      refine ⟨"Failed to calculate unsafe ports: " ++ e, ?_⟩
      simp only [analyzeSecurityGroupResults, hu]
    | ok u =>
      rcases List.mem_cons.mp hf with rfl | hf'
      · rw [hu] at herr
        simp [exceptIsError] at herr
      · obtain ⟨e, he⟩ := ih sp f hf' herr
        refine ⟨e, ?_⟩
        simp only [analyzeSecurityGroupResults, hu, he]

theorem sortReportRows_eq (rows sorted : List Row)
    (h : sortReportRows rows = some sorted) :
    (∀ r ∈ rows, (arnRegion r.Arn).isSome = true) ∧
      sorted = rows.foldl (fun acc x => insertRow x acc) [] := by
  unfold sortReportRows at h
  by_cases hall : rows.all (fun r => (arnRegion r.Arn).isSome) = true
  · rw [if_pos hall] at h
    injection h with h
    exact ⟨fun r hr => List.all_eq_true.mp hall r hr, h.symm⟩
  · rw [if_neg hall] at h
    cases h

theorem generate_ok_elim (facts : List securityGroupRow) (sp : Option (List Nat))
    (meta : Option (Nat × String)) (rep : Report)
    (h : generate facts sp meta = some (Except.ok rep)) :
    ∃ pre, analyzeSecurityGroupResults facts (sp.getD defaultSafePorts) = Except.ok pre ∧
      sortReportRows pre = some rep.Rows ∧
      loadMetadata meta rep.Rows = some (Except.ok rep.Metadata) := by
  cases hA : analyzeSecurityGroupResults facts (sp.getD defaultSafePorts) with
  | error e =>
    simp only [generate, generateCore, hA] at h
    exact Except.noConfusion (Option.some.inj h)
  | ok pre =>
    simp only [generate, generateCore, hA] at h
    cases hS : sortReportRows pre with
    | none =>
      simp only [hS] at h
      exact Option.noConfusion h
    | some sorted =>
      simp only [hS] at h
      cases hM : loadMetadata meta sorted with
      | none =>
        simp only [hM] at h
        exact Option.noConfusion h
      | some res =>
        cases res with
        | error e =>
          simp only [hM] at h
          exact Except.noConfusion (Option.some.inj h)
        | ok md =>
          simp only [hM, Option.some.injEq, Except.ok.injEq] at h
          subst h
          exact ⟨pre, rfl, hS, hM⟩

/-! ### C4: the canonical row order -/

/-- C4: on any successful run, the report's rows are a permutation of the
classified rows, sorted by the spec's composite key (severity rank `red`=0 <
`yellow`=1 < `green`=2, then the region at colon-field index 3 of the ARN,
then the name), and any input pair already in key order — equal keys
included — keeps its relative order: the sort is stable. -/
theorem generate_stable_sorts_by_composite_key (facts : List securityGroupRow)
    (sp : Option (List Nat)) (meta : Option (Nat × String)) (rep : Report)
    (pre : List Row) (a b : Row)
    (h : generate facts sp meta = some (Except.ok rep))
    (hpre : analyzeSecurityGroupResults facts (sp.getD defaultSafePorts) = Except.ok pre)
    (hab : [a, b] <+ pre) (hle : specKeyLe a b) :
    rep.Rows ~ pre ∧ rep.Rows.Pairwise specKeyLe ∧ [a, b] <+ rep.Rows := by
  obtain ⟨pre', hA, hS, hM⟩ := generate_ok_elim facts sp meta rep h
  rw [hpre] at hA
  injection hA with hA
  subst hA
  obtain ⟨hreg, hsorted⟩ := sortReportRows_eq pre rep.Rows hS
  have hvalid : ∀ r ∈ pre, ValidRow r := by
    intro r hr
    exact ⟨analyze_mem_status facts _ pre hpre r hr, hreg r hr⟩
  refine ⟨?_, ?_, ?_⟩
  · rw [hsorted]
    simpa using foldl_insert_perm pre []
  · rw [hsorted]
    exact foldl_insert_sorted pre [] hvalid (by simp) List.Pairwise.nil
  · rw [hsorted]
    exact pair_foldl pre [] a b hvalid (by simp) List.Pairwise.nil hab hle

/-- Witness for C4: two in-use restricted non-default groups, same status and
region, names `"db" < "zz"`; the pair keeps its order in the sorted report. -/
theorem generate_stable_sorts_by_composite_key_witness :
    sampleGreenReport.Rows ~ [sampleGreenRow, sampleZzRow] ∧
      sampleGreenReport.Rows.Pairwise specKeyLe ∧
      [sampleGreenRow, sampleZzRow] <+ sampleGreenReport.Rows :=
  generate_stable_sorts_by_composite_key [sampleGreenFact, sampleGreen2Fact] none
    (some (7, "acme")) sampleGreenReport [sampleGreenRow, sampleZzRow]
    sampleGreenRow sampleZzRow rfl rfl (List.Sublist.refl _) (by decide)

/-! ### C5: row-count conservation -/

/-- C5: on any successful run the number of report rows equals the number of
fetched facts — classification emits one row per fact and the sort permutes
them, so no fact is dropped or duplicated. -/
theorem generate_row_count_conservation (facts : List securityGroupRow)
    (sp : Option (List Nat)) (meta : Option (Nat × String)) (rep : Report)
    (h : generate facts sp meta = some (Except.ok rep)) :
    rep.Rows.length = facts.length := by
  obtain ⟨pre, hA, hS, -⟩ := generate_ok_elim facts sp meta rep h
  obtain ⟨-, hsorted⟩ := sortReportRows_eq pre rep.Rows hS
  have hperm : rep.Rows ~ pre := by
    rw [hsorted]
    simpa using foldl_insert_perm pre []
  rw [hperm.length_eq]
  exact analyze_ok_length facts _ pre hA

/-- Witness for C5 at a concrete two-fact run. -/
theorem generate_row_count_conservation_witness :
    generate [sampleGreenFact, sampleRedFact] none (some (7, "OrgDummy123")) =
      some (Except.ok sampleReport) ∧
    sampleReport.Rows.length = [sampleGreenFact, sampleRedFact].length :=
  ⟨rfl, generate_row_count_conservation [sampleGreenFact, sampleRedFact] none
    (some (7, "OrgDummy123")) sampleReport rfl⟩

/-! ### C6: totality of `Generate` -/

/-- C6 counterexample: with zero fetched facts — an input the claim explicitly
includes — and an import record present, `Generate` neither returns a report
nor an error: `reportRows[0]` in `loadMetadata` is out of range and the run
panics, modelled as `none`. -/
theorem generate_empty_facts_panics :
    generate [] none (some (7, "acme")) = none := rfl

/-- C6 amended: `Generate` is total provided at least one fact was fetched and
every fact's ARN has at least five colon-delimited fields, so that the region
index 3 (sort) and the account index 4 (metadata) are in bounds; it then
returns a report or an error, never panicking. -/
theorem generate_total_of_wellformed (facts : List securityGroupRow)
    (sp : Option (List Nat)) (meta : Option (Nat × String))
    (hne : facts ≠ [])
    (harn : ∀ f ∈ facts, 5 ≤ (splitOnChar ':' f.arn).length) :
    (generate facts sp meta).isSome = true := by
  cases hA : analyzeSecurityGroupResults facts (sp.getD defaultSafePorts) with
  | error e =>
    simp only [generate, generateCore, hA]
    rfl
  | ok pre =>
    have hpre_arn : ∀ r ∈ pre, ∃ f ∈ facts, r.Arn = f.arn :=
      analyze_mem_arn facts _ pre hA
    have hreg : ∀ r ∈ pre, (arnRegion r.Arn).isSome = true := by
      intro r hr
      obtain ⟨f, hf, he⟩ := hpre_arn r hr
      have h5 := harn f hf
      rw [he]
      unfold arnRegion
      rw [Option.isSome_iff_ne_none]
      intro hcontra
      rw [List.get?_eq_none] at hcontra
      omega
    have hS : sortReportRows pre = some (pre.foldl (fun acc x => insertRow x acc) []) := by
      unfold sortReportRows
      rw [if_pos (List.all_eq_true.mpr hreg)]
    have hperm : (pre.foldl (fun acc x => insertRow x acc) []) ~ pre := by
      simpa using foldl_insert_perm pre []
    have hlen : (pre.foldl (fun acc x => insertRow x acc) []).length = facts.length := by
      rw [hperm.length_eq]
      exact analyze_ok_length facts _ pre hA
    cases hsorted : pre.foldl (fun acc x => insertRow x acc) [] with
    | nil =>
      exfalso
      rw [hsorted] at hlen
      exact hne (List.length_eq_zero.mp hlen.symm)
    | cons first tail =>
      have hfirstmem : first ∈ pre := by
        rw [hsorted] at hperm
        exact hperm.mem_iff.mp (List.mem_cons_self first tail)
      obtain ⟨f, hf, he⟩ := hpre_arn first hfirstmem
      have h5 := harn f hf
      have hacct : ∃ acct, (splitOnChar ':' first.Arn).get? 4 = some acct := by
        apply Option.isSome_iff_exists.mp
        rw [he, Option.isSome_iff_ne_none]
        intro hcontra
        rw [List.get?_eq_none] at hcontra
        omega
      obtain ⟨acct, hacct⟩ := hacct
      simp only [generate, generateCore, hA, hS, hsorted]
      cases meta with
      | none => rfl
      | some m =>
        obtain ⟨endDate, organization⟩ := m
        simp only [loadMetadata, List.head?, hacct]
        rfl

/-- Witness for the amended C6 at a one-fact run. -/
theorem generate_total_of_wellformed_witness :
    [sampleRedFact] ≠ [] ∧
    (∀ f ∈ [sampleRedFact], 5 ≤ (splitOnChar ':' f.arn).length) ∧
    (generate [sampleRedFact] none (some (7, "acme"))).isSome = true :=
  ⟨by decide, by decide,
   generate_total_of_wellformed [sampleRedFact] none (some (7, "acme"))
     (by decide) (by decide)⟩

/-! ### C7: fail-fast on parse failure -/

/-- C7: if any fact's port-range text fails to parse, `generate` returns an
error wrapped with the classification-stage description and produces no
report — no partial row set survives. -/
theorem parse_failure_aborts_generate (facts : List securityGroupRow)
    (sp : Option (List Nat)) (meta : Option (Nat × String))
    (h : ∃ f ∈ facts, exceptIsError (f.unsafePorts (sp.getD defaultSafePorts)) = true) :
    isAnalysisStageError (generate facts sp meta) = true := by
  obtain ⟨f, hf, herr⟩ := h
  obtain ⟨e, he⟩ := analyze_error_of_mem facts _ f hf herr
  simp only [generate, generateCore, he, isAnalysisStageError]
  rw [String.data_append]
  exact List.isPrefixOf_iff_prefix.mpr (List.prefix_append _ _)

/-- Witness for C7: one fact whose port-range text is `"abc"` aborts the whole
run with the wrapped error. -/
theorem parse_failure_aborts_generate_witness :
    (∃ f ∈ [sampleBadFact],
      exceptIsError
        (f.unsafePorts ((none : Option (List Nat)).getD defaultSafePorts)) = true) ∧
    isAnalysisStageError (generate [sampleBadFact] none (some (7, "acme"))) = true :=
  ⟨by decide,
   parse_failure_aborts_generate [sampleBadFact] none (some (7, "acme")) (by decide)⟩

/-! ### C8: the safe-port default -/

/-- C8: a `nil` safe-port list defaults to `{22, 80, 443}`, and a supplied
list is passed unchanged into the classification. -/
theorem safe_ports_defaulting :
    (∀ facts meta, generate facts none meta = generateCore facts [22, 80, 443] meta) ∧
      (∀ facts sp meta, generate facts (some sp) meta = generateCore facts sp meta) :=
  ⟨fun _ _ => rfl, fun _ _ _ => rfl⟩

/-! ### C9: the account-ID derivation -/

/-- C9: on any successful run the report's account ID is the 5th
colon-delimited field (zero-based index 4) of the ARN of the first row of the
sorted row sequence. -/
theorem account_id_from_first_sorted_row (facts : List securityGroupRow)
    (sp : Option (List Nat)) (meta : Option (Nat × String)) (rep : Report)
    (first : Row)
    (h : generate facts sp meta = some (Except.ok rep))
    (hfirst : rep.Rows.head? = some first) :
    (splitOnChar ':' first.Arn).get? 4 = some rep.Metadata.Account := by
  obtain ⟨pre, hA, hS, hM⟩ := generate_ok_elim facts sp meta rep h
  cases meta with
  | none =>
    simp only [loadMetadata] at hM
    exact Except.noConfusion (Option.some.inj hM)
  | some m =>
    obtain ⟨endDate, organization⟩ := m
    simp only [loadMetadata, hfirst] at hM
    cases hacct : (splitOnChar ':' first.Arn).get? 4 with
    | none =>
      simp only [hacct] at hM
      exact Option.noConfusion hM
    | some acct =>
      simp only [hacct, Option.some.injEq, Except.ok.injEq] at hM
      rw [← hM]

/-- Witness for C9 at a concrete two-fact run: the first sorted row is the red
one, and the account is its ARN's field 4. -/
theorem account_id_from_first_sorted_row_witness :
    generate [sampleGreenFact, sampleRedFact] none (some (7, "OrgDummy123")) =
      some (Except.ok sampleReport) ∧
    sampleReport.Rows.head? = some sampleRedRow ∧
    (splitOnChar ':' sampleRedRow.Arn).get? 4 = some sampleReport.Metadata.Account :=
  ⟨rfl, rfl,
   account_id_from_first_sorted_row [sampleGreenFact, sampleRedFact] none
     (some (7, "OrgDummy123")) sampleReport sampleRedRow rfl rfl⟩

/-! ### C10: classification only writes Status and Notes -/

/-- C10: the i-th pre-sort row is derived from the i-th input fact, and its
`Arn`, `Name`, `PublicIps`, `InUse` and `IsDefault` fields are the fact's
values unchanged — classification writes only `Status` and `Notes`. -/
theorem classification_preserves_passthrough_fields
    (facts : List securityGroupRow) (sp : List Nat) (rows : List Row)
    (i : Nat) (f : securityGroupRow) (r : Row)
    (h : analyzeSecurityGroupResults facts sp = Except.ok rows)
    (hf : facts.get? i = some f) (hr : rows.get? i = some r) :
    r.Arn = f.arn ∧ r.Name = f.groupName ∧ r.PublicIps = f.ips ∧
      r.InUse = f.inUse ∧ r.IsDefault = f.isDefault := by
  revert sp rows i
  induction facts with
  | nil =>
    intro sp rows i h hf hr
    simp at hf
  | cons row rest ih =>
    intro sp rows i h hf hr
    cases hu : row.unsafePorts sp with
    | error e =>
      simp only [analyzeSecurityGroupResults, hu] at h
      exact Except.noConfusion h
    | ok u =>
      cases ha : analyzeSecurityGroupResults rest sp with
      | error e =>
        simp only [analyzeSecurityGroupResults, hu, ha] at h
        exact Except.noConfusion h
      | ok rows' =>
        simp only [analyzeSecurityGroupResults, hu, ha, Except.ok.injEq] at h
        subst h
        cases i with
        | zero =>
          simp only [List.get?] at hf hr
          injection hf with hf
          injection hr with hr
          subst hf
          subst hr
          exact ⟨rfl, rfl, rfl, rfl, rfl⟩
        | succ i =>
          simp only [List.get?] at hf hr
          exact ih sp rows' i ha hf hr

/-- Witness for C10 at index 0 of a concrete two-fact run. -/
theorem classification_preserves_passthrough_fields_witness :
    analyzeSecurityGroupResults [sampleGreenFact, sampleRedFact] defaultSafePorts =
      Except.ok [sampleGreenRow, sampleRedRow] ∧
    [sampleGreenFact, sampleRedFact].get? 0 = some sampleGreenFact ∧
    [sampleGreenRow, sampleRedRow].get? 0 = some sampleGreenRow ∧
    (sampleGreenRow.Arn = sampleGreenFact.arn ∧
      sampleGreenRow.Name = sampleGreenFact.groupName ∧
      sampleGreenRow.PublicIps = sampleGreenFact.ips ∧
      sampleGreenRow.InUse = sampleGreenFact.inUse ∧
      sampleGreenRow.IsDefault = sampleGreenFact.isDefault) :=
  ⟨rfl, rfl, rfl,
   classification_preserves_passthrough_fields [sampleGreenFact, sampleRedFact]
     defaultSafePorts [sampleGreenRow, sampleRedRow] 0 sampleGreenFact sampleGreenRow
     rfl rfl rfl⟩

end report
